import Mathlib

/-!
Shallow embedding of the LMSR pricing engine of
`src/node_modules/@gnosis.pm/pm-js/src/lmsr.js`.

Modelling conventions:
* The arbitrary-precision `Decimal` values of decimal.js are modelled as exact
  real numbers; the shared decimal context is idealised as exact real
  arithmetic, and `Decimal.ceil` / `Decimal.floor` become `Int.ceil` /
  `Int.floor` (the functions return integral decimals, modelled as `ℤ`).
* A JavaScript array `netOutcomeTokensSold` of length `n` (ABI type
  `int256[]`) is a function `Fin n → ℤ`; the `reduce`-with-`plus` loops of
  the source are finite sums over `Fin n`.
* `funding` (`uint256`) is a `ℕ`; `outcomeTokenCount` and `cost` are kept as
  `ℤ` so that the validation layer can speak about negative inputs; the
  claims add the non-negativity hypotheses where they assume them.
* The JavaScript constant `1 + 1e-9` is the real number `1 + 1/10^9` and
  `feeFactor/1e6` is `fee/10^6`.
* In `calcLMSROutcomeTokenCount`, decimal.js produces `NaN` (for a negative
  argument) or `-Infinity` (for a zero argument) from `ln`, and that
  non-finite value propagates through `times`, `minus` and `floor` to the
  caller; the embedding returns `Option ℤ`, `none` standing for that
  propagated non-numeric outcome when the logarithm argument is non-positive.
-/

namespace LMSR

/-- Liquidity parameter `b = funding / ln(n)` (lmsr.js lines 36, 90, 139, 182). -/
noncomputable def lmsrB (n funding : ℕ) : ℝ := (funding : ℝ) / Real.log (n : ℝ)

/-- The plain sum of exponentials `Σ_j exp(sold_j / b)` appearing in the
`reduce` loops of lmsr.js (lines 45-50, 93-98, 149-155 without the skip). -/
noncomputable def sumExp {n : ℕ} (sold : Fin n → ℤ) (b : ℝ) : ℝ :=
  ∑ j, Real.exp ((sold j : ℝ) / b)

/-- Sum of exponentials with `k` added to the entry at index `i`
(lmsr.js lines 38-44: `numShares.plus(i === outcomeTokenIndex ? outcomeTokenCount : 0)`). -/
noncomputable def sumExpAdd {n : ℕ} (sold : Fin n → ℤ) (i : Fin n) (k b : ℝ) : ℝ :=
  ∑ j, Real.exp (((sold j : ℝ) + if j = i then k else 0) / b)

/-- Sum of exponentials with `k` subtracted from the entry at index `i`
(lmsr.js lines 99-105: `numShares.minus(i === outcomeTokenIndex ? outcomeTokenCount : 0)`). -/
noncomputable def sumExpSub {n : ℕ} (sold : Fin n → ℤ) (i : Fin n) (k b : ℝ) : ℝ :=
  ∑ j, Real.exp (((sold j : ℝ) - if j = i then k else 0) / b)

/-- `calcLMSRCost` (lmsr.js lines 13-57).  If `funding == 0` the base cost is
`outcomeTokenCount`; otherwise it is `b * (ln Σ exp(sold'_j/b) - ln Σ exp(sold_j/b))`
with the count added at the chosen index.  The fee factor `(1 + fee/1e6)` and
the compensating multiplier `(1 + 1e-9)` are applied and the result is
rounded up with `ceil`. -/
noncomputable def calcLMSRCost {n : ℕ} (sold : Fin n → ℤ) (funding : ℕ) (i : Fin n)
    (k : ℤ) (fee : ℕ) : ℤ :=
  ⌈(if funding = 0 then (k : ℝ)
    else lmsrB n funding *
      (Real.log (sumExpAdd sold i (k : ℝ) (lmsrB n funding)) -
        Real.log (sumExp sold (lmsrB n funding)))) *
    (1 + (fee : ℝ) / 1000000) * (1 + 1 / 1000000000)⌉

/-- `calcLMSRProfit` (lmsr.js lines 69-110).  Unfunded markets return `0`;
otherwise the base profit `b * (ln Σ exp(sold_j/b) - ln Σ exp(sold''_j/b))`
(count subtracted at the chosen index) is multiplied by `(1 - fee/1e6)`,
divided by `(1 + 1e-9)` and rounded down with `floor`. -/
noncomputable def calcLMSRProfit {n : ℕ} (sold : Fin n → ℤ) (funding : ℕ) (i : Fin n)
    (k : ℤ) (fee : ℕ) : ℤ :=
  if funding = 0 then 0
  else
    ⌊lmsrB n funding *
        (Real.log (sumExp sold (lmsrB n funding)) -
          Real.log (sumExpSub sold i (k : ℝ) (lmsrB n funding))) *
        (1 - (fee : ℝ) / 1000000) / (1 + 1 / 1000000000)⌋

/-- The argument of the final logarithm in `calcLMSROutcomeTokenCount`
(lmsr.js lines 141-156): the first `reduce` adds
`cost / (1 + feeFactor/1e6)` to every entry before exponentiating, the second
`reduce` skips the chosen index. -/
noncomputable def lmsrInvLogArg {n : ℕ} (sold : Fin n → ℤ) (funding : ℕ) (i : Fin n)
    (cost : ℤ) (fee : ℕ) : ℝ :=
  (∑ j, Real.exp (((sold j : ℝ) + (cost : ℝ) / (1 + (fee : ℝ) / 1000000)) / lmsrB n funding)) -
    ∑ j, if j = i then 0 else Real.exp ((sold j : ℝ) / lmsrB n funding)

/-- `calcLMSROutcomeTokenCount` (lmsr.js lines 121-157):
`b * ln(arg) - sold_i`, rounded down.  When the logarithm argument is
non-positive decimal.js yields `NaN`/`-Infinity`, which propagates to the
returned value; this is modelled as `none`. -/
noncomputable def calcLMSROutcomeTokenCount {n : ℕ} (sold : Fin n → ℤ) (funding : ℕ)
    (i : Fin n) (cost : ℤ) (fee : ℕ) : Option ℤ :=
  if lmsrInvLogArg sold funding i cost fee ≤ 0 then none
  else
    some ⌊lmsrB n funding * Real.log (lmsrInvLogArg sold funding i cost fee) - (sold i : ℝ)⌋

/-- The maximum entry of `netOutcomeTokensSold`
(`Decimal.max(...netOutcomeTokensSold)`, lmsr.js line 183); the index `i` only
serves as a witness that the vector is non-empty. -/
def lmsrMaxSold {n : ℕ} (sold : Fin n → ℤ) (i : Fin n) : ℤ :=
  Finset.univ.sup' ⟨i, Finset.mem_univ i⟩ sold

/-- `calcLMSRMarginalPrice` (lmsr.js lines 167-191).  With `funding == 0` and an
all-zero vector, `1/n`; otherwise the shifted form
`exp(sold_i/b - m) / Σ_j exp(sold_j/b - m)` with `m = max(sold)/b`. -/
noncomputable def calcLMSRMarginalPrice {n : ℕ} (sold : Fin n → ℤ) (funding : ℕ)
    (i : Fin n) : ℝ :=
  if funding = 0 ∧ ∀ j, sold j = 0 then 1 / (n : ℝ)
  else
    Real.exp ((sold i : ℝ) / lmsrB n funding - (lmsrMaxSold sold i : ℝ) / lmsrB n funding) /
      ∑ j, Real.exp ((sold j : ℝ) / lmsrB n funding - (lmsrMaxSold sold i : ℝ) / lmsrB n funding)

/-- The natural-logarithm-of-a-sum-of-exponentials primitive, written the way
the specification document states it; used to phrase the specification-side
cost formula that claim C1 compares against the code. -/
noncomputable def logSumExp {n : ℕ} (v : Fin n → ℝ) : ℝ := Real.log (∑ j, Real.exp (v j))

/-- The cost formula exactly as the specification words it: `sold'` is the
vector with `outcomeTokenCount` added to the entry at `outcomeTokenIndex`,
and the result is `ceil(b * (logSumExp(sold'/b) - logSumExp(sold/b)) *
(1 + fee/1e6) * (1 + 1e-9))`. -/
noncomputable def specLMSRCost {n : ℕ} (sold : Fin n → ℤ) (funding : ℕ) (i : Fin n)
    (k : ℤ) (fee : ℕ) : ℤ :=
  ⌈lmsrB n funding *
      (logSumExp (fun j => ((Function.update sold i (sold i + k)) j : ℝ) / lmsrB n funding) -
        logSumExp (fun j => (sold j : ℝ) / lmsrB n funding)) *
    (1 + (fee : ℝ) / 1000000) * (1 + 1 / 1000000000)⌉

/-- The error signalled when arguments fail validation. -/
inductive LMSRError where
  | invalidInput
deriving DecidableEq

/-- Modelled from the spec: `normalizeWeb3Args` (imported by lmsr.js from
`./utils`, a file that is not present under `src/`) normalizes and validates
the arguments of the four pricing operations before any arithmetic runs.  Per
the spec's error taxonomy, an input is valid only when the outcome count is at
least 2, the index is in range, token counts / costs / funding are
non-negative, and the fee factor lies in `[0, 1e6)`. -/
def lmsrValidArgs (sold : List ℤ) (funding index amount fee : ℤ) : Prop :=
  2 ≤ sold.length ∧ 0 ≤ index ∧ index.toNat < sold.length ∧ 0 ≤ amount ∧
    0 ≤ funding ∧ 0 ≤ fee ∧ fee < 1000000

instance (sold : List ℤ) (funding index amount fee : ℤ) :
    Decidable (lmsrValidArgs sold funding index amount fee) := by
  unfold lmsrValidArgs; infer_instance

/-- Modelled from the spec: validity for the marginal-price operation, which
takes no token count and no fee factor. -/
def lmsrPriceValidArgs (sold : List ℤ) (funding index : ℤ) : Prop :=
  2 ≤ sold.length ∧ 0 ≤ index ∧ index.toNat < sold.length ∧ 0 ≤ funding

instance (sold : List ℤ) (funding index : ℤ) :
    Decidable (lmsrPriceValidArgs sold funding index) := by
  unfold lmsrPriceValidArgs; infer_instance

/-- Modelled from the spec: `calcLMSRCost` behind the validation performed by
`normalizeWeb3Args` — invalid input is rejected before any arithmetic. -/
noncomputable def calcLMSRCostChecked (sold : List ℤ) (funding index amount fee : ℤ) :
    Except LMSRError ℤ :=
  if h : lmsrValidArgs sold funding index amount fee then
    Except.ok (calcLMSRCost (fun j => sold.get j) funding.toNat
      ⟨index.toNat, h.2.2.1⟩ amount fee.toNat)
  else Except.error LMSRError.invalidInput

/-- Modelled from the spec: `calcLMSRProfit` behind input validation. -/
noncomputable def calcLMSRProfitChecked (sold : List ℤ) (funding index amount fee : ℤ) :
    Except LMSRError ℤ :=
  if h : lmsrValidArgs sold funding index amount fee then
    Except.ok (calcLMSRProfit (fun j => sold.get j) funding.toNat
      ⟨index.toNat, h.2.2.1⟩ amount fee.toNat)
  else Except.error LMSRError.invalidInput

/-- Modelled from the spec: `calcLMSROutcomeTokenCount` behind input validation. -/
noncomputable def calcLMSROutcomeTokenCountChecked (sold : List ℤ)
    (funding index cost fee : ℤ) : Except LMSRError (Option ℤ) :=
  if h : lmsrValidArgs sold funding index cost fee then
    Except.ok (calcLMSROutcomeTokenCount (fun j => sold.get j) funding.toNat
      ⟨index.toNat, h.2.2.1⟩ cost fee.toNat)
  else Except.error LMSRError.invalidInput

/-- Modelled from the spec: `calcLMSRMarginalPrice` behind input validation. -/
noncomputable def calcLMSRMarginalPriceChecked (sold : List ℤ) (funding index : ℤ) :
    Except LMSRError ℝ :=
  if h : lmsrPriceValidArgs sold funding index then
    Except.ok (calcLMSRMarginalPrice (fun j => sold.get j) funding.toNat
      ⟨index.toNat, h.2.2.1⟩)
  else Except.error LMSRError.invalidInput

lemma lmsrB_pos {n funding : ℕ} (h2 : 2 ≤ n) (hf : 0 < funding) : 0 < lmsrB n funding := by
  unfold lmsrB
  apply div_pos (by exact_mod_cast hf)
  apply Real.log_pos
  exact_mod_cast Nat.lt_of_lt_of_le Nat.one_lt_two h2

lemma sumExp_pos {n : ℕ} (sold : Fin n → ℤ) (b : ℝ) (i : Fin n) : 0 < sumExp sold b :=
  Finset.sum_pos (fun _ _ => Real.exp_pos _) ⟨i, Finset.mem_univ i⟩

lemma sumExpAdd_pos {n : ℕ} (sold : Fin n → ℤ) (i : Fin n) (k b : ℝ) :
    0 < sumExpAdd sold i k b :=
  Finset.sum_pos (fun _ _ => Real.exp_pos _) ⟨i, Finset.mem_univ i⟩

lemma sumExpSub_pos {n : ℕ} (sold : Fin n → ℤ) (i : Fin n) (k b : ℝ) :
    0 < sumExpSub sold i k b :=
  Finset.sum_pos (fun _ _ => Real.exp_pos _) ⟨i, Finset.mem_univ i⟩

lemma sumExpAdd_eq {n : ℕ} (sold : Fin n → ℤ) (i : Fin n) (k b : ℝ) :
    sumExpAdd sold i k b
      = sumExp sold b + (Real.exp (((sold i : ℝ) + k) / b) - Real.exp ((sold i : ℝ) / b)) := by
  unfold sumExpAdd sumExp
  have h : ∀ j : Fin n, Real.exp (((sold j : ℝ) + if j = i then k else 0) / b)
      = Real.exp ((sold j : ℝ) / b)
        + (if j = i then Real.exp (((sold i : ℝ) + k) / b) - Real.exp ((sold i : ℝ) / b)
           else 0) := by
    intro j
    by_cases hj : j = i
    · subst hj; simp
    · simp [hj]
  rw [Finset.sum_congr rfl fun j _ => h j, Finset.sum_add_distrib,
    Finset.sum_ite_eq' Finset.univ i, if_pos (Finset.mem_univ i)]

lemma sumExpSub_eq {n : ℕ} (sold : Fin n → ℤ) (i : Fin n) (k b : ℝ) :
    sumExpSub sold i k b
      = sumExp sold b + (Real.exp (((sold i : ℝ) - k) / b) - Real.exp ((sold i : ℝ) / b)) := by
  unfold sumExpSub sumExp
  have h : ∀ j : Fin n, Real.exp (((sold j : ℝ) - if j = i then k else 0) / b)
      = Real.exp ((sold j : ℝ) / b)
        + (if j = i then Real.exp (((sold i : ℝ) - k) / b) - Real.exp ((sold i : ℝ) / b)
           else 0) := by
    intro j
    by_cases hj : j = i
    · subst hj; simp
    · simp [hj]
  rw [Finset.sum_congr rfl fun j _ => h j, Finset.sum_add_distrib,
    Finset.sum_ite_eq' Finset.univ i, if_pos (Finset.mem_univ i)]

lemma sum_skip_eq {n : ℕ} (f : Fin n → ℝ) (i : Fin n) :
    (∑ j, if j = i then 0 else f j) = (∑ j, f j) - f i := by
  have h : ∀ j : Fin n, (if j = i then (0 : ℝ) else f j)
      = f j - (if j = i then f j else 0) := by
    intro j; by_cases hj : j = i <;> simp [hj]
  rw [Finset.sum_congr rfl fun j _ => h j, Finset.sum_sub_distrib,
    Finset.sum_ite_eq' Finset.univ i, if_pos (Finset.mem_univ i)]

lemma exp_add_div (x c b : ℝ) :
    Real.exp ((x + c) / b) = Real.exp (x / b) * Real.exp (c / b) := by
  rw [add_div, Real.exp_add]

lemma exp_le_sumExp {n : ℕ} (sold : Fin n → ℤ) (b : ℝ) (i : Fin n) :
    Real.exp ((sold i : ℝ) / b) ≤ sumExp sold b :=
  Finset.single_le_sum (fun j _ => (Real.exp_pos ((sold j : ℝ) / b)).le) (Finset.mem_univ i)

lemma log_sumExpAdd_le {n : ℕ} (sold : Fin n → ℤ) (i : Fin n) (k b : ℝ)
    (hk : 0 ≤ k) (hb : 0 < b) :
    Real.log (sumExpAdd sold i k b) ≤ Real.log (sumExp sold b) + k / b := by
  have hS := sumExp_pos sold b i
  have hE : 1 ≤ Real.exp (k / b) := Real.one_le_exp (div_nonneg hk hb.le)
  have hei := exp_le_sumExp sold b i
  have hle : sumExpAdd sold i k b ≤ sumExp sold b * Real.exp (k / b) := by
    rw [sumExpAdd_eq, exp_add_div]
    nlinarith [mul_nonneg (sub_nonneg.2 hei) (sub_nonneg.2 hE)]
  calc Real.log (sumExpAdd sold i k b)
      ≤ Real.log (sumExp sold b * Real.exp (k / b)) :=
        Real.log_le_log (sumExpAdd_pos sold i k b) hle
    _ = Real.log (sumExp sold b) + k / b := by
        rw [Real.log_mul hS.ne' (Real.exp_ne_zero _), Real.log_exp]

lemma log_le_log_sumExpAdd {n : ℕ} (sold : Fin n → ℤ) (i : Fin n) (k b : ℝ)
    (hk : 0 ≤ k) (hb : 0 < b) :
    Real.log (sumExp sold b) ≤ Real.log (sumExpAdd sold i k b) := by
  have hS := sumExp_pos sold b i
  apply Real.log_le_log hS
  rw [sumExpAdd_eq, exp_add_div]
  nlinarith [Real.exp_pos ((sold i : ℝ) / b), Real.one_le_exp (div_nonneg hk hb.le)]

lemma log_sumExpSub_le {n : ℕ} (sold : Fin n → ℤ) (i : Fin n) (k b : ℝ)
    (hk : 0 ≤ k) (hb : 0 < b) :
    Real.log (sumExpSub sold i k b) ≤ Real.log (sumExp sold b) := by
  apply Real.log_le_log (sumExpSub_pos sold i k b)
  rw [sumExpSub_eq]
  have hle : Real.exp (((sold i : ℝ) - k) / b) ≤ Real.exp ((sold i : ℝ) / b) := by
    apply Real.exp_le_exp.2
    gcongr
    linarith
  linarith

lemma ceil_eq_one_of {x : ℝ} (h1 : 0 < x) (h2 : x ≤ 1) : ⌈x⌉ = 1 := by
  rw [Int.ceil_eq_iff]
  push_cast
  exact ⟨by linarith, h2⟩

/-- Claim C2, counterexample: on an unfunded market with `feeFactor = 0` the
claim says `calcLMSRCost` returns the token count exactly, but for
`netOutcomeTokensSold = [0,0]`, `outcomeTokenCount = 1` the code computes
`ceil(1 * (1 + 1e-9)) = 2 ≠ 1`: the compensating multiplier pushes every
positive integer base cost past the next integer before the `ceil`. -/
theorem unfunded_unit_cost_counterexample :
    calcLMSRCost ![0, 0] 0 (0 : Fin 2) 1 0 = 2 := by
  unfold calcLMSRCost
  rw [if_pos rfl, Int.ceil_eq_iff]
  push_cast
  norm_num

/-- Claim C2, amended: with `funding = 0` and `feeFactor = 0`,
`calcLMSRCost` returns `k + ⌈k / 10^9⌉` (equal to `k` only for `k = 0`;
`k + 1` for `1 ≤ k ≤ 10^9`) because of the `(1 + 1e-9)` upward bias applied
before the `ceil`, and `calcLMSRProfit` returns exactly `0`. -/
theorem unfunded_cost_and_profit {n : ℕ} (sold : Fin n → ℤ) (i : Fin n) (k : ℤ)
    (h2 : 2 ≤ n) (hk : 0 ≤ k) :
    calcLMSRCost sold 0 i k 0 = k + ⌈(k : ℝ) / 1000000000⌉ ∧
      calcLMSRProfit sold 0 i k 0 = 0 := by
  constructor
  · unfold calcLMSRCost
    rw [if_pos rfl]
    have hval : ((k : ℝ)) * (1 + ((0 : ℕ) : ℝ) / 1000000) * (1 + 1 / 1000000000)
        = (k : ℝ) / 1000000000 + (k : ℤ) := by push_cast; ring
    rw [hval, Int.ceil_add_int]
    exact add_comm _ _
  · unfold calcLMSRProfit
    exact if_pos rfl

/-- Witness for the amended claim C2 at the concrete input
`sold = [0,0]`, `i = 0`, `k = 1`. -/
theorem unfunded_cost_and_profit_witness :
    2 ≤ 2 ∧ 0 ≤ (1 : ℤ) ∧
      (calcLMSRCost ![0, 0] 0 (0 : Fin 2) 1 0 = 1 + ⌈((1 : ℤ) : ℝ) / 1000000000⌉ ∧
        calcLMSRProfit ![0, 0] 0 (0 : Fin 2) 1 0 = 0) :=
  ⟨by norm_num, by norm_num,
    unfunded_cost_and_profit ![0, 0] (0 : Fin 2) 1 (by norm_num) (by norm_num)⟩

/-- Claim C3: `calcLMSROutcomeTokenCount` reports a domain error to the caller
(`none`, modelling the `NaN`/`-Infinity` the decimal engine propagates out of
`ln`) exactly when the argument of the final logarithm is non-positive. -/
theorem token_count_error_iff_nonpos_arg {n : ℕ} (sold : Fin n → ℤ) (funding : ℕ)
    (i : Fin n) (cost : ℤ) (fee : ℕ) :
    calcLMSROutcomeTokenCount sold funding i cost fee = none ↔
      lmsrInvLogArg sold funding i cost fee ≤ 0 := by
  unfold calcLMSROutcomeTokenCount
  split_ifs with h
  · simp [h]
  · simp [h]

/-- Claim C6: every pricing operation invoked with an invalid input — outcome
count below 2, index out of range, negative token count / cost / funding, or
fee factor outside `[0, 1e6)` — returns the `InvalidInput` error instead of a
value, before any arithmetic happens (the validation layer is modelled from
the spec, as `normalizeWeb3Args` is not among the source files). -/
theorem invalid_input_rejected (sold : List ℤ) (funding index amount fee : ℤ)
    (h : ¬ lmsrValidArgs sold funding index amount fee) :
    calcLMSRCostChecked sold funding index amount fee = Except.error LMSRError.invalidInput ∧
      calcLMSRProfitChecked sold funding index amount fee
          = Except.error LMSRError.invalidInput ∧
      calcLMSROutcomeTokenCountChecked sold funding index amount fee
          = Except.error LMSRError.invalidInput ∧
      (¬ lmsrPriceValidArgs sold funding index →
        calcLMSRMarginalPriceChecked sold funding index
          = Except.error LMSRError.invalidInput) := by
  refine ⟨?_, ?_, ?_, fun hp => ?_⟩
  · unfold calcLMSRCostChecked; exact dif_neg h
  · unfold calcLMSRProfitChecked; exact dif_neg h
  · unfold calcLMSROutcomeTokenCountChecked; exact dif_neg h
  · unfold calcLMSRMarginalPriceChecked; exact dif_neg hp

/-- Claim C1: on a funded market the code's cost computation agrees with the
specification formula `ceil(b * (logSumExp(sold'/b) - logSumExp(sold/b)) *
(1 + fee/1e6) * (1 + 1e-9))`, where `sold'` is the vector with the token
count added at the chosen index. -/
theorem cost_matches_spec_formula {n : ℕ} (sold : Fin n → ℤ) (funding : ℕ) (i : Fin n)
    (k : ℤ) (fee : ℕ) (h2 : 2 ≤ n) (hf : 0 < funding) (hk : 0 ≤ k)
    (hfee : fee < 1000000) :
    calcLMSRCost sold funding i k fee = specLMSRCost sold funding i k fee := by
  have hsum : (∑ j, Real.exp (((sold j : ℝ) + if j = i then (k : ℝ) else 0) / lmsrB n funding))
      = ∑ j, Real.exp (((Function.update sold i (sold i + k)) j : ℝ) / lmsrB n funding) := by
    apply Finset.sum_congr rfl
    intro j _
    by_cases hj : j = i
    · subst hj
      rw [Function.update_same]
      push_cast
      simp
    · rw [Function.update_noteq hj]
      simp [hj]
  unfold calcLMSRCost specLMSRCost logSumExp sumExpAdd sumExp
  rw [if_neg hf.ne', hsum]

/-- Witness for claim C1 at `sold = [0,0]`, `funding = 1`, `i = 0`, `k = 1`,
`fee = 0`. -/
theorem cost_matches_spec_formula_witness :
    2 ≤ 2 ∧ 0 < 1 ∧ 0 ≤ (1 : ℤ) ∧ 0 < 1000000 ∧
      calcLMSRCost ![0, 0] 1 (0 : Fin 2) 1 0 = specLMSRCost ![0, 0] 1 (0 : Fin 2) 1 0 :=
  ⟨by norm_num, by norm_num, by norm_num, by norm_num,
    cost_matches_spec_formula ![0, 0] 1 (0 : Fin 2) 1 0 (by norm_num) (by norm_num)
      (by norm_num) (by norm_num)⟩

/-- Claim C4: on a funded market the marginal prices of all outcomes sum to
exactly 1 (exactly, in the exact-arithmetic model of the decimal context). -/
theorem marginal_prices_sum_to_one {n : ℕ} (sold : Fin n → ℤ) (funding : ℕ)
    (h2 : 2 ≤ n) (hf : 0 < funding) :
    ∑ i, calcLMSRMarginalPrice sold funding i = 1 := by
  have hn : 0 < n := lt_of_lt_of_le Nat.zero_lt_two h2
  have i0 : Fin n := ⟨0, hn⟩
  have hcond : ¬(funding = 0 ∧ ∀ j, sold j = 0) := fun hc => hf.ne' hc.1
  have hmax : ∀ i : Fin n, lmsrMaxSold sold i = lmsrMaxSold sold i0 := fun _ => rfl
  have hD : 0 < ∑ j, Real.exp ((sold j : ℝ) / lmsrB n funding -
      (lmsrMaxSold sold i0 : ℝ) / lmsrB n funding) :=
    Finset.sum_pos (fun _ _ => Real.exp_pos _) ⟨i0, Finset.mem_univ _⟩
  have hprice : ∀ i : Fin n, calcLMSRMarginalPrice sold funding i
      = Real.exp ((sold i : ℝ) / lmsrB n funding -
          (lmsrMaxSold sold i0 : ℝ) / lmsrB n funding) /
        ∑ j, Real.exp ((sold j : ℝ) / lmsrB n funding -
          (lmsrMaxSold sold i0 : ℝ) / lmsrB n funding) := by
    intro i
    unfold calcLMSRMarginalPrice
    rw [if_neg hcond, hmax i]
  rw [Finset.sum_congr rfl fun i _ => hprice i, ← Finset.sum_div, div_self hD.ne']

/-- Witness for claim C4 at `sold = [0,0]`, `funding = 1`. -/
theorem marginal_prices_sum_to_one_witness :
    2 ≤ 2 ∧ 0 < 1 ∧ ∑ i, calcLMSRMarginalPrice ![0, 0] 1 i = 1 :=
  ⟨by norm_num, by norm_num, marginal_prices_sum_to_one ![0, 0] 1 (by norm_num) (by norm_num)⟩

/-- Claim C9: the shifted log-sum-exp form used by `calcLMSRMarginalPrice`
is offset-independent in exact arithmetic — for every offset `m` the shifted
ratio equals the unshifted ratio `exp(sold_i/b) / Σ_j exp(sold_j/b)`, and the
function itself computes that unshifted value. -/
theorem marginal_price_shift_invariant {n : ℕ} (sold : Fin n → ℤ) (funding : ℕ)
    (i : Fin n) (h2 : 2 ≤ n) (hf : 0 < funding) :
    (∀ m : ℝ,
        Real.exp ((sold i : ℝ) / lmsrB n funding - m) /
            (∑ j, Real.exp ((sold j : ℝ) / lmsrB n funding - m))
          = Real.exp ((sold i : ℝ) / lmsrB n funding) / sumExp sold (lmsrB n funding)) ∧
      calcLMSRMarginalPrice sold funding i
        = Real.exp ((sold i : ℝ) / lmsrB n funding) / sumExp sold (lmsrB n funding) := by
  have hS := sumExp_pos sold (lmsrB n funding) i
  have hinv : ∀ m : ℝ,
      Real.exp ((sold i : ℝ) / lmsrB n funding - m) /
          (∑ j, Real.exp ((sold j : ℝ) / lmsrB n funding - m))
        = Real.exp ((sold i : ℝ) / lmsrB n funding) / sumExp sold (lmsrB n funding) := by
    intro m
    have hM : Real.exp m ≠ 0 := Real.exp_ne_zero m
    unfold sumExp at hS ⊢
    simp only [Real.exp_sub]
    rw [← Finset.sum_div]
    rw [div_div_div_cancel_right₀]
    exact hM
  refine ⟨hinv, ?_⟩
  unfold calcLMSRMarginalPrice
  rw [if_neg (fun hc => hf.ne' hc.1)]
  exact hinv _

/-- Witness for claim C9 at `sold = [0,0]`, `funding = 1`, `i = 0`. -/
theorem marginal_price_shift_invariant_witness :
    2 ≤ 2 ∧ 0 < 1 ∧
      ((∀ m : ℝ,
          Real.exp ((((![0, 0] : Fin 2 → ℤ) 0 : ℤ) : ℝ) / lmsrB 2 1 - m) /
              (∑ j, Real.exp ((((![0, 0] : Fin 2 → ℤ) j : ℤ) : ℝ) / lmsrB 2 1 - m))
            = Real.exp ((((![0, 0] : Fin 2 → ℤ) 0 : ℤ) : ℝ) / lmsrB 2 1) /
              sumExp ![0, 0] (lmsrB 2 1)) ∧
        calcLMSRMarginalPrice ![0, 0] 1 (0 : Fin 2)
          = Real.exp ((((![0, 0] : Fin 2 → ℤ) 0 : ℤ) : ℝ) / lmsrB 2 1) /
            sumExp ![0, 0] (lmsrB 2 1)) :=
  ⟨by norm_num, by norm_num,
    marginal_price_shift_invariant ![0, 0] 1 (0 : Fin 2) (by norm_num) (by norm_num)⟩

/-- Claim C10: on a funded market, with a valid fee factor and a non-negative
token count, `calcLMSRProfit` never returns a negative value, and returns
exactly 0 when the token count is 0. -/
theorem profit_nonneg_and_zero_at_zero {n : ℕ} (sold : Fin n → ℤ) (funding : ℕ)
    (i : Fin n) (k : ℤ) (fee : ℕ) (h2 : 2 ≤ n) (hf : 0 < funding) (hk : 0 ≤ k)
    (hfee : fee < 1000000) :
    0 ≤ calcLMSRProfit sold funding i k fee ∧
      (k = 0 → calcLMSRProfit sold funding i k fee = 0) := by
  have hb := lmsrB_pos h2 hf
  constructor
  · unfold calcLMSRProfit
    rw [if_neg hf.ne']
    apply Int.floor_nonneg.2
    apply div_nonneg _ (by norm_num)
    apply mul_nonneg
    · apply mul_nonneg hb.le
      have := log_sumExpSub_le sold i (k : ℝ) (lmsrB n funding) (by exact_mod_cast hk) hb
      linarith
    · have hfR : (fee : ℝ) ≤ 1000000 := by exact_mod_cast hfee.le
      have h1 : (fee : ℝ) / 1000000 ≤ 1 := by
        rw [div_le_one (by norm_num)]
        exact hfR
      linarith
  · intro hk0
    subst hk0
    unfold calcLMSRProfit
    rw [if_neg hf.ne']
    have hSS : sumExpSub sold i ((0 : ℤ) : ℝ) (lmsrB n funding)
        = sumExp sold (lmsrB n funding) := by
      rw [sumExpSub_eq]
      push_cast
      simp
    rw [hSS]
    simp

/-- Witness for claim C10 at `sold = [0,0]`, `funding = 1`, `k = 0`, `fee = 0`. -/
theorem profit_nonneg_and_zero_at_zero_witness :
    2 ≤ 2 ∧ 0 < 1 ∧ 0 ≤ (0 : ℤ) ∧ 0 < 1000000 ∧
      (0 ≤ calcLMSRProfit ![0, 0] 1 (0 : Fin 2) 0 0 ∧
        ((0 : ℤ) = 0 → calcLMSRProfit ![0, 0] 1 (0 : Fin 2) 0 0 = 0)) :=
  ⟨by norm_num, by norm_num, by norm_num, by norm_num,
    profit_nonneg_and_zero_at_zero ![0, 0] 1 (0 : Fin 2) 0 0 (by norm_num) (by norm_num)
      (by norm_num) (by norm_num)⟩

lemma baseCost_nonneg {n : ℕ} (sold : Fin n → ℤ) (funding : ℕ) (i : Fin n) (k : ℤ)
    (h2 : 2 ≤ n) (hf : 0 < funding) (hk : 0 ≤ k) :
    0 ≤ lmsrB n funding *
      (Real.log (sumExpAdd sold i (k : ℝ) (lmsrB n funding)) -
        Real.log (sumExp sold (lmsrB n funding))) := by
  have hb := lmsrB_pos h2 hf
  have := log_le_log_sumExpAdd sold i (k : ℝ) (lmsrB n funding) (by exact_mod_cast hk) hb
  apply mul_nonneg hb.le
  linarith

lemma baseCost_le_count {n : ℕ} (sold : Fin n → ℤ) (funding : ℕ) (i : Fin n) (k : ℤ)
    (h2 : 2 ≤ n) (hf : 0 < funding) (hk : 0 ≤ k) :
    lmsrB n funding *
      (Real.log (sumExpAdd sold i (k : ℝ) (lmsrB n funding)) -
        Real.log (sumExp sold (lmsrB n funding))) ≤ (k : ℝ) := by
  have hb := lmsrB_pos h2 hf
  have h := log_sumExpAdd_le sold i (k : ℝ) (lmsrB n funding) (by exact_mod_cast hk) hb
  have hdiff : Real.log (sumExpAdd sold i (k : ℝ) (lmsrB n funding)) -
      Real.log (sumExp sold (lmsrB n funding)) ≤ (k : ℝ) / lmsrB n funding := by linarith
  calc lmsrB n funding *
      (Real.log (sumExpAdd sold i (k : ℝ) (lmsrB n funding)) -
        Real.log (sumExp sold (lmsrB n funding)))
      ≤ lmsrB n funding * ((k : ℝ) / lmsrB n funding) :=
        mul_le_mul_of_nonneg_left hdiff hb.le
    _ = (k : ℝ) := by rw [mul_comm, div_mul_cancel₀ _ hb.ne']

/-- Claim C7, amended: the funded cost is bounded *above* (not below) by the
cost the unfunded case returns for the same count and fee — LMSR prices are at
most one collateral unit per token — and the result is never negative. -/
theorem funded_cost_le_unfunded {n : ℕ} (sold : Fin n → ℤ) (funding : ℕ) (i : Fin n)
    (k : ℤ) (fee : ℕ) (h2 : 2 ≤ n) (hk : 0 ≤ k) (hfee : fee < 1000000) :
    calcLMSRCost sold funding i k fee ≤ calcLMSRCost sold 0 i k fee ∧
      0 ≤ calcLMSRCost sold funding i k fee := by
  have hkR : (0 : ℝ) ≤ (k : ℝ) := by exact_mod_cast hk
  have hF : (0 : ℝ) ≤ 1 + (fee : ℝ) / 1000000 := by positivity
  have hE : (0 : ℝ) ≤ 1 + 1 / 1000000000 := by norm_num
  by_cases hf : funding = 0
  · subst hf
    refine ⟨le_refl _, ?_⟩
    unfold calcLMSRCost
    rw [if_pos rfl]
    apply Int.ceil_nonneg
    positivity
  · have hfpos : 0 < funding := Nat.pos_of_ne_zero hf
    have hbc_le := baseCost_le_count sold funding i k h2 hfpos hk
    have hbc_nonneg := baseCost_nonneg sold funding i k h2 hfpos hk
    constructor
    · unfold calcLMSRCost
      rw [if_neg hf, if_pos rfl]
      apply Int.ceil_le_ceil
      apply mul_le_mul_of_nonneg_right _ hE
      exact mul_le_mul_of_nonneg_right hbc_le hF
    · unfold calcLMSRCost
      rw [if_neg hf]
      apply Int.ceil_nonneg
      exact mul_nonneg (mul_nonneg hbc_nonneg hF) hE

/-- Witness for the amended claim C7 at `sold = [0,0]`, `funding = 1`,
`k = 1`, `fee = 0`. -/
theorem funded_cost_le_unfunded_witness :
    2 ≤ 2 ∧ 0 ≤ (1 : ℤ) ∧ 0 < 1000000 ∧
      (calcLMSRCost ![0, 0] 1 (0 : Fin 2) 1 0 ≤ calcLMSRCost ![0, 0] 0 (0 : Fin 2) 1 0 ∧
        0 ≤ calcLMSRCost ![0, 0] 1 (0 : Fin 2) 1 0) :=
  ⟨by norm_num, by norm_num, by norm_num,
    funded_cost_le_unfunded ![0, 0] 1 (0 : Fin 2) 1 0 (by norm_num) (by norm_num)
      (by norm_num)⟩

/-- Claim C8, amended: after the final `ceil`/`floor` rounding the fee
monotonicity is weak, not strict — for `f1 ≤ f2` the cost is non-decreasing
and the profit non-increasing in the fee factor (funded market, positive
count). -/
theorem fee_weak_monotone {n : ℕ} (sold : Fin n → ℤ) (funding : ℕ) (i : Fin n)
    (k : ℤ) (f1 f2 : ℕ) (h2 : 2 ≤ n) (hf : 0 < funding) (hk : 0 < k)
    (hle : f1 ≤ f2) (hf2 : f2 < 1000000) :
    calcLMSRCost sold funding i k f1 ≤ calcLMSRCost sold funding i k f2 ∧
      calcLMSRProfit sold funding i k f2 ≤ calcLMSRProfit sold funding i k f1 := by
  have hb := lmsrB_pos h2 hf
  have hfR : (f1 : ℝ) ≤ (f2 : ℝ) := by exact_mod_cast hle
  have hbc_nonneg := baseCost_nonneg sold funding i k h2 hf hk.le
  have hbp_nonneg : 0 ≤ lmsrB n funding *
      (Real.log (sumExp sold (lmsrB n funding)) -
        Real.log (sumExpSub sold i (k : ℝ) (lmsrB n funding))) := by
    have := log_sumExpSub_le sold i (k : ℝ) (lmsrB n funding) (by exact_mod_cast hk.le) hb
    apply mul_nonneg hb.le
    linarith
  constructor
  · unfold calcLMSRCost
    rw [if_neg hf.ne']
    apply Int.ceil_le_ceil
    apply mul_le_mul_of_nonneg_right _ (by norm_num : (0 : ℝ) ≤ 1 + 1 / 1000000000)
    apply mul_le_mul_of_nonneg_left _ hbc_nonneg
    have : (f1 : ℝ) / 1000000 ≤ (f2 : ℝ) / 1000000 :=
      div_le_div_of_nonneg_right hfR (by norm_num)
    linarith
  · unfold calcLMSRProfit
    rw [if_neg hf.ne', if_neg hf.ne']
    apply Int.floor_le_floor
    have hsub : 1 - (f2 : ℝ) / 1000000 ≤ 1 - (f1 : ℝ) / 1000000 := by
      have : (f1 : ℝ) / 1000000 ≤ (f2 : ℝ) / 1000000 :=
        div_le_div_of_nonneg_right hfR (by norm_num)
      linarith
    apply div_le_div_of_nonneg_right _ (by norm_num : (0 : ℝ) ≤ 1 + 1 / 1000000000)
    exact mul_le_mul_of_nonneg_left hsub hbp_nonneg

/-- Witness for the amended claim C8 at `sold = [0,0]`, `funding = 1`,
`k = 1`, fees `0 ≤ 1`. -/
theorem fee_weak_monotone_witness :
    2 ≤ 2 ∧ 0 < 1 ∧ 0 < (1 : ℤ) ∧ 0 ≤ 1 ∧ 1 < 1000000 ∧
      (calcLMSRCost ![0, 0] 1 (0 : Fin 2) 1 0 ≤ calcLMSRCost ![0, 0] 1 (0 : Fin 2) 1 1 ∧
        calcLMSRProfit ![0, 0] 1 (0 : Fin 2) 1 1 ≤ calcLMSRProfit ![0, 0] 1 (0 : Fin 2) 1 0) :=
  ⟨by norm_num, by norm_num, by norm_num, by norm_num, by norm_num,
    fee_weak_monotone ![0, 0] 1 (0 : Fin 2) 1 0 1 (by norm_num) (by norm_num) (by norm_num)
      (by norm_num) (by norm_num)⟩

/-- Claim C5, amended (positive part): with `feeFactor = 0` on a funded
market, feeding the cost computed for `k` tokens back into the inversion
always succeeds (the logarithm argument stays positive) and never
understates the count — the returned value is at least `k`, because both
cost biases (`ceil` and `1 + 1e-9`) point upward. -/
theorem roundtrip_never_understates {n : ℕ} (sold : Fin n → ℤ) (funding : ℕ) (i : Fin n)
    (k : ℤ) (h2 : 2 ≤ n) (hf : 0 < funding) (hk : 0 ≤ k) :
    ∃ m : ℤ, calcLMSROutcomeTokenCount sold funding i (calcLMSRCost sold funding i k 0) 0
        = some m ∧ k ≤ m := by
  have hb := lmsrB_pos h2 hf
  have hS := sumExp_pos sold (lmsrB n funding) i
  have hS' := sumExpAdd_pos sold i (k : ℝ) (lmsrB n funding)
  have hbc_nonneg := baseCost_nonneg sold funding i k h2 hf hk
  have hc_eq : calcLMSRCost sold funding i k 0
      = ⌈lmsrB n funding *
          (Real.log (sumExpAdd sold i (k : ℝ) (lmsrB n funding)) -
            Real.log (sumExp sold (lmsrB n funding))) * (1 + ((0 : ℕ) : ℝ) / 1000000) *
          (1 + 1 / 1000000000)⌉ := by
    unfold calcLMSRCost
    rw [if_neg hf.ne']
  have hcost_ge : lmsrB n funding *
      (Real.log (sumExpAdd sold i (k : ℝ) (lmsrB n funding)) -
        Real.log (sumExp sold (lmsrB n funding)))
      ≤ ((calcLMSRCost sold funding i k 0 : ℤ) : ℝ) := by
    rw [hc_eq]
    have h1 := Int.le_ceil (lmsrB n funding *
      (Real.log (sumExpAdd sold i (k : ℝ) (lmsrB n funding)) -
        Real.log (sumExp sold (lmsrB n funding))) * (1 + ((0 : ℕ) : ℝ) / 1000000) *
      (1 + 1 / 1000000000))
    have h2' : lmsrB n funding *
        (Real.log (sumExpAdd sold i (k : ℝ) (lmsrB n funding)) -
          Real.log (sumExp sold (lmsrB n funding)))
        ≤ lmsrB n funding *
          (Real.log (sumExpAdd sold i (k : ℝ) (lmsrB n funding)) -
            Real.log (sumExp sold (lmsrB n funding))) * (1 + ((0 : ℕ) : ℝ) / 1000000) *
          (1 + 1 / 1000000000) := by
      have hz : ((0 : ℕ) : ℝ) = 0 := by norm_num
      rw [hz]
      nlinarith [hbc_nonneg]
    linarith
  have harg : lmsrInvLogArg sold funding i (calcLMSRCost sold funding i k 0) 0
      = Real.exp (((calcLMSRCost sold funding i k 0 : ℤ) : ℝ) / lmsrB n funding) *
          sumExp sold (lmsrB n funding) -
        (sumExp sold (lmsrB n funding) - Real.exp ((sold i : ℝ) / lmsrB n funding)) := by
    have hskip : (∑ j, if j = i then 0
          else Real.exp ((sold j : ℝ) / lmsrB n funding))
        = (∑ j, Real.exp ((sold j : ℝ) / lmsrB n funding)) -
          Real.exp ((sold i : ℝ) / lmsrB n funding) :=
      sum_skip_eq (fun j => Real.exp ((sold j : ℝ) / lmsrB n funding)) i
    have hterm : ∀ j : Fin n,
        Real.exp (((sold j : ℝ) + ((calcLMSRCost sold funding i k 0 : ℤ) : ℝ) /
            (1 + ((0 : ℕ) : ℝ) / 1000000)) / lmsrB n funding)
          = Real.exp ((sold j : ℝ) / lmsrB n funding) *
            Real.exp (((calcLMSRCost sold funding i k 0 : ℤ) : ℝ) / lmsrB n funding) := by
      intro j
      rw [show ((calcLMSRCost sold funding i k 0 : ℤ) : ℝ) / (1 + ((0 : ℕ) : ℝ) / 1000000)
          = ((calcLMSRCost sold funding i k 0 : ℤ) : ℝ) by norm_num]
      exact exp_add_div _ _ _
    have hfirst : (∑ j, Real.exp (((sold j : ℝ) +
          ((calcLMSRCost sold funding i k 0 : ℤ) : ℝ) / (1 + ((0 : ℕ) : ℝ) / 1000000)) /
          lmsrB n funding))
        = Real.exp (((calcLMSRCost sold funding i k 0 : ℤ) : ℝ) / lmsrB n funding) *
          ∑ j, Real.exp ((sold j : ℝ) / lmsrB n funding) := by
      rw [Finset.sum_congr rfl fun j _ => hterm j, ← Finset.sum_mul, mul_comm]
    unfold lmsrInvLogArg sumExp
    rw [hskip, hfirst]
  have hereq : Real.exp ((lmsrB n funding *
      (Real.log (sumExpAdd sold i (k : ℝ) (lmsrB n funding)) -
        Real.log (sumExp sold (lmsrB n funding)))) / lmsrB n funding)
      = sumExpAdd sold i (k : ℝ) (lmsrB n funding) / sumExp sold (lmsrB n funding) := by
    rw [mul_div_cancel_left₀ _ hb.ne', ← Real.log_div hS'.ne' hS.ne']
    exact Real.exp_log (div_pos hS' hS)
  have hmono : sumExpAdd sold i (k : ℝ) (lmsrB n funding)
      ≤ Real.exp (((calcLMSRCost sold funding i k 0 : ℤ) : ℝ) / lmsrB n funding) *
        sumExp sold (lmsrB n funding) := by
    have h6 : Real.exp ((lmsrB n funding *
        (Real.log (sumExpAdd sold i (k : ℝ) (lmsrB n funding)) -
          Real.log (sumExp sold (lmsrB n funding)))) / lmsrB n funding)
        ≤ Real.exp (((calcLMSRCost sold funding i k 0 : ℤ) : ℝ) / lmsrB n funding) :=
      Real.exp_le_exp.2 (div_le_div_of_nonneg_right hcost_ge hb.le)
    rw [hereq] at h6
    have h7 := mul_le_mul_of_nonneg_right h6 hS.le
    rwa [div_mul_cancel₀ _ hS.ne'] at h7
  have hS'eq : sumExpAdd sold i (k : ℝ) (lmsrB n funding)
      = sumExp sold (lmsrB n funding) +
        (Real.exp ((sold i : ℝ) / lmsrB n funding) * Real.exp ((k : ℝ) / lmsrB n funding) -
          Real.exp ((sold i : ℝ) / lmsrB n funding)) := by
    rw [sumExpAdd_eq, exp_add_div]
  have harg_ge : Real.exp ((sold i : ℝ) / lmsrB n funding) *
        Real.exp ((k : ℝ) / lmsrB n funding)
      ≤ lmsrInvLogArg sold funding i (calcLMSRCost sold funding i k 0) 0 := by
    rw [harg]
    linarith [hmono, hS'eq.symm.le, hS'eq.le]
  have harg_pos : 0 < lmsrInvLogArg sold funding i (calcLMSRCost sold funding i k 0) 0 :=
    lt_of_lt_of_le (mul_pos (Real.exp_pos _) (Real.exp_pos _)) harg_ge
  refine ⟨⌊lmsrB n funding *
      Real.log (lmsrInvLogArg sold funding i (calcLMSRCost sold funding i k 0) 0) -
      (sold i : ℝ)⌋, ?_, ?_⟩
  · unfold calcLMSROutcomeTokenCount
    rw [if_neg (not_le.2 harg_pos)]
  · apply Int.le_floor.2
    have hlog := Real.log_le_log (mul_pos (Real.exp_pos _) (Real.exp_pos _)) harg_ge
    rw [Real.log_mul (Real.exp_ne_zero _) (Real.exp_ne_zero _), Real.log_exp,
      Real.log_exp] at hlog
    have h8 := mul_le_mul_of_nonneg_left hlog hb.le
    have hid : lmsrB n funding *
        ((sold i : ℝ) / lmsrB n funding + (k : ℝ) / lmsrB n funding)
        = (sold i : ℝ) + (k : ℝ) := by
      field_simp
    rw [hid] at h8
    linarith

/-- Witness for the amended claim C5 at `sold = [0,0]`, `funding = 1`, `k = 0`. -/
theorem roundtrip_never_understates_witness :
    2 ≤ 2 ∧ 0 < 1 ∧ 0 ≤ (0 : ℤ) ∧
      ∃ m : ℤ, calcLMSROutcomeTokenCount ![0, 0] 1 (0 : Fin 2)
          (calcLMSRCost ![0, 0] 1 (0 : Fin 2) 0 0) 0 = some m ∧ 0 ≤ m :=
  ⟨by norm_num, by norm_num, by norm_num,
    roundtrip_never_understates ![0, 0] 1 (0 : Fin 2) 0 (by norm_num) (by norm_num)
      (by norm_num)⟩

lemma lmsrB_two_one : lmsrB 2 1 = 1 / Real.log 2 := by
  unfold lmsrB
  norm_num

lemma exp_div_b21 (x : ℤ) : Real.exp ((x : ℝ) / lmsrB 2 1) = (2 : ℝ) ^ x := by
  rw [lmsrB_two_one, one_div, div_inv_eq_mul,
    show ((x : ℝ)) * Real.log 2 = Real.log ((2 : ℝ) ^ x) from (Real.log_zpow 2 x).symm]
  exact Real.exp_log (zpow_pos (by norm_num) x)

lemma sumExp_pair (a c : ℤ) (b : ℝ) :
    sumExp ![a, c] b = Real.exp ((a : ℝ) / b) + Real.exp ((c : ℝ) / b) := by
  unfold sumExp
  rw [Fin.sum_univ_two]
  norm_num [Matrix.cons_val_zero, Matrix.cons_val_one, Matrix.head_cons]

lemma sumExpAdd_pair_zero (a c : ℤ) (k b : ℝ) :
    sumExpAdd ![a, c] (0 : Fin 2) k b
      = Real.exp (((a : ℝ) + k) / b) + Real.exp ((c : ℝ) / b) := by
  unfold sumExpAdd
  rw [Fin.sum_univ_two]
  have h10 : (1 : Fin 2) ≠ 0 := by decide
  norm_num [Matrix.cons_val_zero, Matrix.cons_val_one, Matrix.head_cons, h10]

lemma lmsrInvLogArg_pair_zero (a c cost : ℤ) :
    lmsrInvLogArg ![a, c] 1 (0 : Fin 2) cost 0
      = Real.exp (((a : ℝ) + (cost : ℝ)) / lmsrB 2 1) +
          Real.exp (((c : ℝ) + (cost : ℝ)) / lmsrB 2 1) -
        Real.exp ((c : ℝ) / lmsrB 2 1) := by
  unfold lmsrInvLogArg
  rw [Fin.sum_univ_two, Fin.sum_univ_two]
  have h10 : (1 : Fin 2) ≠ 0 := by decide
  norm_num [Matrix.cons_val_zero, Matrix.cons_val_one, Matrix.head_cons, h10]

lemma log_two_pos : 0 < Real.log 2 := Real.log_pos (by norm_num)

lemma inv_log_two_lt_two : 1 / Real.log 2 < 2 := by
  have h := Real.log_two_gt_d9
  rw [div_lt_iff log_two_pos]
  linarith

/-- The cost of buying one token of outcome 0 in the state
`sold = [-100, 0]`, `funding = 1` is the smallest positive unit: the exact
base cost is the tiny value `log2((1 + 2^-99)/(1 + 2^-100))`, and the `ceil`
lifts it to 1. -/
lemma cost_neg100_eval : calcLMSRCost ![(-100 : ℤ), 0] 1 (0 : Fin 2) 1 0 = 1 := by
  have hbinv : (0 : ℝ) < 1 / Real.log 2 := by positivity
  have hSA : sumExpAdd ![(-100 : ℤ), 0] (0 : Fin 2) (((1 : ℤ)) : ℝ) (lmsrB 2 1)
      = (2 : ℝ) ^ (-99 : ℤ) + 1 := by
    rw [sumExpAdd_pair_zero,
      show ((-100 : ℤ) : ℝ) + ((1 : ℤ) : ℝ) = ((-99 : ℤ) : ℝ) by push_cast; norm_num,
      exp_div_b21]
    norm_num [Real.exp_zero]
  have hS : sumExp ![(-100 : ℤ), 0] (lmsrB 2 1) = (2 : ℝ) ^ (-100 : ℤ) + 1 := by
    rw [sumExp_pair, exp_div_b21]
    norm_num [Real.exp_zero]
  have hlt : (2 : ℝ) ^ (-100 : ℤ) + 1 < (2 : ℝ) ^ (-99 : ℤ) + 1 := by
    have := zpow_lt_zpow_right₀ (by norm_num : (1 : ℝ) < 2)
      (by norm_num : (-100 : ℤ) < -99)
    linarith
  have hposB : (0 : ℝ) < (2 : ℝ) ^ (-100 : ℤ) + 1 := by positivity
  have hlogdiff : 0 < Real.log ((2 : ℝ) ^ (-99 : ℤ) + 1) -
      Real.log ((2 : ℝ) ^ (-100 : ℤ) + 1) := by
    have := Real.log_lt_log hposB hlt
    linarith
  have h99small : (2 : ℝ) ^ (-99 : ℤ) ≤ 1 / 8 := by
    have h1 : (2 : ℝ) ^ (-99 : ℤ) ≤ (2 : ℝ) ^ (-3 : ℤ) :=
      zpow_le_zpow_right₀ (by norm_num) (by norm_num)
    have h2 : ((2 : ℝ) ^ (-3 : ℤ)) = 1 / 8 := by norm_num
    linarith
  have hlog_up : Real.log ((2 : ℝ) ^ (-99 : ℤ) + 1) ≤ (2 : ℝ) ^ (-99 : ℤ) := by
    have := Real.log_le_sub_one_of_pos
      (by positivity : (0 : ℝ) < (2 : ℝ) ^ (-99 : ℤ) + 1)
    linarith
  have hlog_lo : 0 ≤ Real.log ((2 : ℝ) ^ (-100 : ℤ) + 1) := by
    apply Real.log_nonneg
    nlinarith [zpow_pos (show (0 : ℝ) < 2 by norm_num) (-100 : ℤ)]
  have hdiff_le : Real.log ((2 : ℝ) ^ (-99 : ℤ) + 1) -
      Real.log ((2 : ℝ) ^ (-100 : ℤ) + 1) ≤ 1 / 8 :=
    le_trans (sub_le_self _ hlog_lo) (le_trans hlog_up h99small)
  have hmain : (1 / Real.log 2) *
      (Real.log ((2 : ℝ) ^ (-99 : ℤ) + 1) - Real.log ((2 : ℝ) ^ (-100 : ℤ) + 1))
      ≤ 2 * (1 / 8) :=
    mul_le_mul inv_log_two_lt_two.le hdiff_le hlogdiff.le (by norm_num)
  unfold calcLMSRCost
  rw [if_neg (by norm_num : ¬((1 : ℕ) = 0)), hSA, hS, lmsrB_two_one]
  apply ceil_eq_one_of
  · apply mul_pos (mul_pos (mul_pos hbinv hlogdiff) (by norm_num)) (by norm_num)
  · rw [show (((0 : ℕ)) : ℝ) = 0 by norm_num]
    nlinarith [mul_pos hbinv hlogdiff]

/-- Inverting a budget of one collateral unit in the state
`sold = [-100, 0]`, `funding = 1` yields 100 tokens of outcome 0: budget 1
buys back the whole gap of the deeply shorted outcome. -/
lemma count_neg100_eval :
    calcLMSROutcomeTokenCount ![(-100 : ℤ), 0] 1 (0 : Fin 2) 1 0 = some 100 := by
  have hbinv : (0 : ℝ) < 1 / Real.log 2 := by positivity
  have hArg : lmsrInvLogArg ![(-100 : ℤ), 0] 1 (0 : Fin 2) 1 0
      = (2 : ℝ) ^ (-99 : ℤ) + 1 := by
    rw [lmsrInvLogArg_pair_zero,
      show ((-100 : ℤ) : ℝ) + ((1 : ℤ) : ℝ) = ((-99 : ℤ) : ℝ) by push_cast; norm_num,
      show ((0 : ℤ) : ℝ) + ((1 : ℤ) : ℝ) = ((1 : ℤ) : ℝ) by push_cast; norm_num,
      exp_div_b21, exp_div_b21]
    norm_num [Real.exp_zero]
  have hposA : (0 : ℝ) < (2 : ℝ) ^ (-99 : ℤ) + 1 := by positivity
  have hlogpos : 0 < Real.log ((2 : ℝ) ^ (-99 : ℤ) + 1) := by
    apply Real.log_pos
    nlinarith [zpow_pos (show (0 : ℝ) < 2 by norm_num) (-99 : ℤ)]
  have h99small : (2 : ℝ) ^ (-99 : ℤ) ≤ 1 / 8 := by
    have h1 : (2 : ℝ) ^ (-99 : ℤ) ≤ (2 : ℝ) ^ (-3 : ℤ) :=
      zpow_le_zpow_right₀ (by norm_num) (by norm_num)
    have h2 : ((2 : ℝ) ^ (-3 : ℤ)) = 1 / 8 := by norm_num
    linarith
  have hlog_up : Real.log ((2 : ℝ) ^ (-99 : ℤ) + 1) ≤ (2 : ℝ) ^ (-99 : ℤ) := by
    have := Real.log_le_sub_one_of_pos hposA
    linarith
  have hbound : (1 / Real.log 2) * Real.log ((2 : ℝ) ^ (-99 : ℤ) + 1) ≤ 2 * (1 / 8) :=
    mul_le_mul inv_log_two_lt_two.le (le_trans hlog_up h99small) hlogpos.le (by norm_num)
  unfold calcLMSROutcomeTokenCount
  rw [hArg, if_neg (by nlinarith : ¬((2 : ℝ) ^ (-99 : ℤ) + 1 ≤ 0))]
  congr 1
  rw [show ((![(-100 : ℤ), 0] (0 : Fin 2) : ℤ) : ℝ) = -100 by
      norm_num [Matrix.cons_val_zero],
    lmsrB_two_one, Int.floor_eq_iff]
  constructor
  · push_cast
    nlinarith [mul_pos hbinv hlogpos]
  · push_cast
    nlinarith [mul_pos hbinv hlogpos]

/-- Claim C5, counterexample: the round trip is not within any fixed small
tolerance.  At `sold = [-100, 0]`, `funding = 1`, buying `k = 1` token of
outcome 0 is quoted at cost 1 (the exact cost is around `2^-100/ln 2` and the
`ceil` lifts it to a whole unit), and feeding that cost 1 back into
`calcLMSROutcomeTokenCount` returns 100 tokens: the round-trip error is
`|100 - 1| = 99`, far beyond the scale of the `1e-9` biases and the single
unit the `ceil`/`floor` roundings move (and it grows without bound as the
outcome is shorted deeper). -/
theorem roundtrip_tolerance_counterexample :
    calcLMSRCost ![(-100 : ℤ), 0] 1 (0 : Fin 2) 1 0 = 1 ∧
      calcLMSROutcomeTokenCount ![(-100 : ℤ), 0] 1 (0 : Fin 2) 1 0 = some 100 ∧
      ¬(|(100 : ℤ) - 1| ≤ 1) :=
  ⟨cost_neg100_eval, count_neg100_eval, by decide⟩

/-- In the state `sold = [0, 100]`, `funding = 1`, buying 10 tokens of the
far-behind outcome 0 costs only 1 unit: the exact cost
`log2((2^10 + 2^100)/(1 + 2^100))` is tiny. -/
lemma cost_rich_other_eval : calcLMSRCost ![(0 : ℤ), 100] 1 (0 : Fin 2) 10 0 = 1 := by
  have hbinv : (0 : ℝ) < 1 / Real.log 2 := by positivity
  have hSA : sumExpAdd ![(0 : ℤ), 100] (0 : Fin 2) (((10 : ℤ)) : ℝ) (lmsrB 2 1)
      = (2 : ℝ) ^ (10 : ℤ) + (2 : ℝ) ^ (100 : ℤ) := by
    rw [sumExpAdd_pair_zero,
      show ((0 : ℤ) : ℝ) + ((10 : ℤ) : ℝ) = ((10 : ℤ) : ℝ) by push_cast; norm_num,
      exp_div_b21, exp_div_b21]
  have hS : sumExp ![(0 : ℤ), 100] (lmsrB 2 1) = 1 + (2 : ℝ) ^ (100 : ℤ) := by
    rw [sumExp_pair, exp_div_b21, exp_div_b21]
    norm_num
  have h10 : ((2 : ℝ) ^ (10 : ℤ)) = 1024 := by norm_num
  have hP : (4096 : ℝ) ≤ (2 : ℝ) ^ (100 : ℤ) := by
    have h1 : (2 : ℝ) ^ (12 : ℤ) ≤ (2 : ℝ) ^ (100 : ℤ) :=
      zpow_le_zpow_right₀ (by norm_num) (by norm_num)
    have h2 : ((2 : ℝ) ^ (12 : ℤ)) = 4096 := by norm_num
    linarith
  have hB : (0 : ℝ) < 1 + (2 : ℝ) ^ (100 : ℤ) := by positivity
  have hA : (0 : ℝ) < (2 : ℝ) ^ (10 : ℤ) + (2 : ℝ) ^ (100 : ℤ) := by positivity
  have hABlt : 1 + (2 : ℝ) ^ (100 : ℤ) < (2 : ℝ) ^ (10 : ℤ) + (2 : ℝ) ^ (100 : ℤ) := by
    linarith
  have hlogdiff : 0 < Real.log ((2 : ℝ) ^ (10 : ℤ) + (2 : ℝ) ^ (100 : ℤ)) -
      Real.log (1 + (2 : ℝ) ^ (100 : ℤ)) := by
    have := Real.log_lt_log hB hABlt
    linarith
  have hup : Real.log ((2 : ℝ) ^ (10 : ℤ) + (2 : ℝ) ^ (100 : ℤ)) -
      Real.log (1 + (2 : ℝ) ^ (100 : ℤ)) ≤ 1 / 4 := by
    have h3 := Real.log_le_sub_one_of_pos (div_pos hA hB)
    have h4 : Real.log (((2 : ℝ) ^ (10 : ℤ) + (2 : ℝ) ^ (100 : ℤ)) /
          (1 + (2 : ℝ) ^ (100 : ℤ)))
        = Real.log ((2 : ℝ) ^ (10 : ℤ) + (2 : ℝ) ^ (100 : ℤ)) -
          Real.log (1 + (2 : ℝ) ^ (100 : ℤ)) := Real.log_div hA.ne' hB.ne'
    rw [h4] at h3
    have h5 : ((2 : ℝ) ^ (10 : ℤ) + (2 : ℝ) ^ (100 : ℤ)) / (1 + (2 : ℝ) ^ (100 : ℤ)) - 1
        ≤ 1 / 4 := by
      rw [div_sub_one hB.ne', div_le_iff hB]
      nlinarith
    linarith
  have hmain : (1 / Real.log 2) *
      (Real.log ((2 : ℝ) ^ (10 : ℤ) + (2 : ℝ) ^ (100 : ℤ)) -
        Real.log (1 + (2 : ℝ) ^ (100 : ℤ))) ≤ 2 * (1 / 4) :=
    mul_le_mul inv_log_two_lt_two.le hup hlogdiff.le (by norm_num)
  unfold calcLMSRCost
  rw [if_neg (by norm_num : ¬((1 : ℕ) = 0)), hSA, hS, lmsrB_two_one]
  apply ceil_eq_one_of
  · apply mul_pos (mul_pos (mul_pos hbinv hlogdiff) (by norm_num)) (by norm_num)
  · rw [show (((0 : ℕ)) : ℝ) = 0 by norm_num]
    nlinarith [mul_pos hbinv hlogdiff]

/-- The same purchase on the unfunded market costs `ceil(10 * (1 + 1e-9)) = 11`. -/
lemma cost_rich_other_unfunded_eval :
    calcLMSRCost ![(0 : ℤ), 100] 0 (0 : Fin 2) 10 0 = 11 := by
  unfold calcLMSRCost
  rw [if_pos rfl, Int.ceil_eq_iff]
  push_cast
  norm_num

/-- Claim C7, counterexample: the funded cost is not bounded below by the
unfunded cost.  At `sold = [0, 100]`, `funding = 1`, buying 10 tokens of
outcome 0 costs 1 on the funded market but 11 on the unfunded one. -/
theorem funded_cost_ge_unfunded_counterexample :
    calcLMSRCost ![(0 : ℤ), 100] 1 (0 : Fin 2) 10 0 = 1 ∧
      calcLMSRCost ![(0 : ℤ), 100] 0 (0 : Fin 2) 10 0 = 11 ∧
      ¬(calcLMSRCost ![(0 : ℤ), 100] 0 (0 : Fin 2) 10 0
          ≤ calcLMSRCost ![(0 : ℤ), 100] 1 (0 : Fin 2) 10 0) := by
  refine ⟨cost_rich_other_eval, cost_rich_other_unfunded_eval, ?_⟩
  rw [cost_rich_other_eval, cost_rich_other_unfunded_eval]
  decide

/-- The cost of 10 tokens of outcome 0 in the symmetric state
`sold = [0, 0]`, `funding = 1` rounds to 10 for every fee factor of at most
one part per million: the exact pre-`ceil` value lies strictly between 9 and
10 for both. -/
lemma cost_flat_fee_eval (f : ℕ) (hf : (f : ℝ) ≤ 1) :
    calcLMSRCost ![(0 : ℤ), 0] 1 (0 : Fin 2) 10 f = 10 := by
  have hbinv : (0 : ℝ) < 1 / Real.log 2 := by positivity
  have hSA : sumExpAdd ![(0 : ℤ), 0] (0 : Fin 2) (((10 : ℤ)) : ℝ) (lmsrB 2 1)
      = (1025 : ℝ) := by
    rw [sumExpAdd_pair_zero,
      show ((0 : ℤ) : ℝ) + ((10 : ℤ) : ℝ) = ((10 : ℤ) : ℝ) by push_cast; norm_num,
      exp_div_b21]
    norm_num [Real.exp_zero]
  have hS : sumExp ![(0 : ℤ), 0] (lmsrB 2 1) = (2 : ℝ) := by
    rw [sumExp_pair]
    norm_num [Real.exp_zero]
  have h1024 : Real.log (1024 : ℝ) = 10 * Real.log 2 := by
    rw [show (1024 : ℝ) = 2 ^ (10 : ℕ) by norm_num, Real.log_pow]
    norm_num
  have hlow : 9 * Real.log 2 < Real.log 1025 - Real.log 2 := by
    have ha : Real.log 1024 < Real.log 1025 := Real.log_lt_log (by norm_num) (by norm_num)
    linarith
  have hc : Real.log 1025 - Real.log 1024 ≤ 1 / 1024 := by
    have h3 := Real.log_le_sub_one_of_pos (show (0 : ℝ) < 1025 / 1024 by norm_num)
    have h4 : Real.log ((1025 : ℝ) / 1024) = Real.log 1025 - Real.log 1024 :=
      Real.log_div (by norm_num) (by norm_num)
    rw [h4] at h3
    nlinarith
  have hup : Real.log 1025 - Real.log 2 ≤ 9 * Real.log 2 + 1 / 1024 := by linarith
  have hbc_low : (9 : ℝ) < (1 / Real.log 2) * (Real.log 1025 - Real.log 2) := by
    have h5 := mul_lt_mul_of_pos_left hlow hbinv
    have h6 : (1 / Real.log 2) * (9 * Real.log 2) = 9 := by
      field_simp
    linarith
  have hbc_up : (1 / Real.log 2) * (Real.log 1025 - Real.log 2) ≤ 9 + 1 / 512 := by
    have hdiff_pos : 0 < Real.log 1025 - Real.log 2 := by
      have := log_two_pos
      linarith
    have h7 : (1 / Real.log 2) * (Real.log 1025 - Real.log 2)
        ≤ (1 / Real.log 2) * (9 * Real.log 2 + 1 / 1024) :=
      mul_le_mul_of_nonneg_left hup hbinv.le
    have h8 : (1 / Real.log 2) * (9 * Real.log 2 + 1 / 1024)
        = 9 + (1 / 1024) * (1 / Real.log 2) := by
      field_simp
      ring
    have h9 : (1 / 1024 : ℝ) * (1 / Real.log 2) ≤ (1 / 1024) * 2 :=
      mul_le_mul_of_nonneg_left inv_log_two_lt_two.le (by norm_num)
    nlinarith
  have hfee0 : (0 : ℝ) ≤ (f : ℝ) / 1000000 := by positivity
  have hfee1 : (f : ℝ) / 1000000 ≤ 1 / 1000000 :=
    div_le_div_of_nonneg_right hf (by norm_num)
  unfold calcLMSRCost
  rw [if_neg (by norm_num : ¬((1 : ℕ) = 0)), hSA, hS, lmsrB_two_one, Int.ceil_eq_iff]
  constructor
  · push_cast
    nlinarith [hbc_low, hfee0]
  · push_cast
    nlinarith [hbc_up, hbc_low, hfee1, hfee0]

/-- Claim C8, counterexample: after the final `ceil`, the cost is not strictly
increasing in the fee factor — at `sold = [0, 0]`, `funding = 1`, `k = 10`,
fee factors 0 and 1 produce the identical cost 10. -/
theorem fee_strictness_counterexample :
    (0 : ℕ) < 1 ∧
      calcLMSRCost ![(0 : ℤ), 0] 1 (0 : Fin 2) 10 0 = 10 ∧
      calcLMSRCost ![(0 : ℤ), 0] 1 (0 : Fin 2) 10 1 = 10 ∧
      ¬(calcLMSRCost ![(0 : ℤ), 0] 1 (0 : Fin 2) 10 0
          < calcLMSRCost ![(0 : ℤ), 0] 1 (0 : Fin 2) 10 1) := by
  have h0 := cost_flat_fee_eval 0 (by norm_num)
  have h1 := cost_flat_fee_eval 1 (by norm_num)
  refine ⟨by norm_num, h0, h1, ?_⟩
  rw [h0, h1]
  decide

/-- Witness for claim C6 at the concrete invalid input `sold = [0]`
(only one outcome). -/
theorem invalid_input_rejected_witness :
    ¬ lmsrValidArgs [0] 1 0 1 0 ∧
      (calcLMSRCostChecked [0] 1 0 1 0 = Except.error LMSRError.invalidInput ∧
        calcLMSRProfitChecked [0] 1 0 1 0 = Except.error LMSRError.invalidInput ∧
        calcLMSROutcomeTokenCountChecked [0] 1 0 1 0
            = Except.error LMSRError.invalidInput ∧
        (¬ lmsrPriceValidArgs [0] 1 0 →
          calcLMSRMarginalPriceChecked [0] 1 0 = Except.error LMSRError.invalidInput)) :=
  ⟨by decide, invalid_input_rejected [0] 1 0 1 0 (by decide)⟩

end LMSR
